import Mathlib

/-!
Verification development for the `bw_functional` allocation engine and
matrix-assembly pipeline.

The definitions below are a shallow embedding of the Python sources:

* `src/bw_functional/allocation.py` — `generic_allocation`,
  `get_property_value`, `property_allocation`, `allocation_strategies`;
* `src/bw_functional/node_classes.py` — `Process.allocate`,
  `Function.processing_edge`;
* `src/bw_functional/database.py` — the `Join` / `Mutate` / `Build`
  table pipeline.

Machine floats are modelled as exact numbers (`ℚ` for the allocation
engine, `ℝ` for the table pipeline, which needs `Real.log` for the
lognormal rule).  Python exceptions are modelled with `Except`.
-/

namespace BWFunctional

/-- Python exception classes raised by the embedded code. -/
inductive Err where
  | keyError
  | zeroDivisionError
  | valueError
  | validityError
  | typeError
  | attributeError
deriving DecidableEq, Repr

/-- A value stored under a property label in a function's `properties` dict.
`num isFloat v` is a bare Python number (`isFloat` distinguishes `float`
from `int`, which `isinstance(prop, float)` treats differently);
`rec` is a structured record `{amount?, normalize?, ...}` where `hasOtherKeys`
records whether the dict holds further keys (e.g. `unit`), which matters for
Python truthiness of the dict. -/
inductive PropVal where
  | num (isFloat : Bool) (v : ℚ)
  | record (amount : Option ℚ) (normalize : Option Bool) (hasOtherKeys : Bool)
deriving DecidableEq, Repr

/-- Python truthiness of a stored property value: a number is truthy iff
nonzero, a dict iff nonempty. -/
def PropVal.truthy : PropVal → Bool
  | .num _ v => v ≠ 0
  | .record amount normalize hasOtherKeys => amount.isSome || normalize.isSome || hasOtherKeys

/-- One `Function` node as the allocation engine sees it: its
`allocation_factor` and `substitution_factor` entries (absent keys are
`none`), its `properties` dict (absent is `none`), and the amounts of the
production-type edges that point at it (its processing edges). -/
structure Fn where
  allocation_factor : Option ℚ
  substitution_factor : Option ℚ
  properties : Option (List (String × PropVal))
  production_edge_amounts : List ℚ
deriving DecidableEq, Repr

/-- Python truthiness of the `properties` attribute (`if not props`):
falsy when absent (`None`) or an empty dict. -/
def propsTruthy : Option (List (String × PropVal)) → Bool
  | none => false
  | some l => !l.isEmpty

/-- `props.get(property_label)` on the properties dict. -/
def lookupProp (l : List (String × PropVal)) (label : String) : Option PropVal :=
  (l.find? (fun p => p.1 = label)).map (·.2)

/-- `Function.processing_edge` (node_classes.py): raises `ValidityError`
when the function has more than one production edge, returns `None` when it
has none, and the unique edge (its amount) otherwise. -/
def Fn.processing_edge (f : Fn) : Except Err (Option ℚ) :=
  if f.production_edge_amounts.length > 1 then .error .validityError
  else .ok f.production_edge_amounts.head?

/-- `get_property_value` (allocation.py).  Mirrors the source line by line:
`if not props: raise KeyError`, `prop = props.get(label)`,
`if not prop: raise KeyError`, `isinstance(prop, float)` legacy return,
then the normalize branch reading `function.processing_edge["amount"]`
(subscripting `None` is a `TypeError`) and `prop["amount"]`
(a missing key is a `KeyError`). -/
def get_property_value (f : Fn) (label : String) : Except Err ℚ :=
  match f.properties with
  | none => .error .keyError
  | some props =>
    if props.isEmpty then .error .keyError
    else
      match lookupProp props label with
      | none => .error .keyError
      | some prop =>
        if !prop.truthy then .error .keyError
        else
          match prop with
          | .num true v => .ok v
          | .num false _ => .error .attributeError
          | .record amount normalize _ =>
            if normalize.getD false then
              match f.processing_edge with
              | .error e => .error e
              | .ok none => .error .typeError
              | .ok (some edgeAmount) =>
                match amount with
                | none => .error .keyError
                | some a => .ok (|edgeAmount| * a)
            else
              match amount with
              | none => .error .keyError
              | some a => .ok a

/-- `fn.get("substitution_factor", 0)`. -/
def Fn.subst (f : Fn) : ℚ := f.substitution_factor.getD 0

/-- A `Process` as the allocation engine sees it: the functions returned by
`process.functions()`, i.e. the inputs of its production-type exchanges
(one list entry per production edge). -/
structure Process where
  functions : List Fn
deriving DecidableEq, Repr

/-- `process.multifunctional` (node_classes.py): more than one production
edge.  `functions()` yields one entry per production edge, so this is
`functions.length > 1`. -/
def Process.multifunctional (p : Process) : Bool :=
  p.functions.length > 1

/-- The partition loop of `generic_allocation` (allocation.py lines 51-59).
Returns the full function list after the resets together with the
allocation set.  `fn["allocation_factor"]` with the key absent raises
`KeyError` (only reached when `substitution_factor > 0`, by
short-circuiting). -/
def partitionFns : List Fn → Except Err (List Fn × List Fn)
  | [] => .ok ([], [])
  | fn :: rest =>
    if fn.subst > 0 then
      match fn.allocation_factor with
      | none => .error .keyError
      | some af =>
        match partitionFns rest with
        | .error e => .error e
        | .ok (l, a) =>
          if af > 0 then .ok ({fn with allocation_factor := some 0} :: l, a)
          else .ok (fn :: l, a)
    else
      match partitionFns rest with
      | .error e => .error e
      | .ok (l, a) => .ok (fn :: l, fn :: a)

/-- The list comprehension `[getter(function) for function in functions]`:
the first getter failure propagates. -/
def getterList (getter : Fn → Except Err ℚ) : List Fn → Except Err (List ℚ)
  | [] => .ok []
  | fn :: rest =>
    match getter fn with
    | .error e => .error e
    | .ok v =>
      match getterList getter rest with
      | .error e => .error e
      | .ok vs => .ok (v :: vs)

/-- The assignment loop of `generic_allocation` (lines 69-72): every
function of the allocation set (the ones with `substitution_factor <= 0`)
gets `allocation_factor = getter(fn) / total`; the others were already
handled by the partition loop and stay untouched.  Each function's own
record is unchanged when its getter is called, so re-calling the getter
here returns the value already summed into `total`. -/
def assignFactors (getter : Fn → Except Err ℚ) (total : ℚ) :
    List Fn → Except Err (List Fn)
  | [] => .ok []
  | fn :: rest =>
    if fn.subst > 0 then
      match assignFactors getter total rest with
      | .error e => .error e
      | .ok l => .ok (fn :: l)
    else
      match getter fn with
      | .error e => .error e
      | .ok v =>
        match assignFactors getter total rest with
        | .error e => .error e
        | .ok l => .ok ({fn with allocation_factor := some (v / total)} :: l)

/-- `generic_allocation(process, getter)` (allocation.py): no-op unless the
process is multifunctional; partition with resets; `total` as the sum of
the getter values over the allocation set; `ZeroDivisionError` when the
total is zero; then the assignment loop.  (The `isinstance` guard of the
source is enforced by the type of `p`.) -/
def generic_allocation (getter : Fn → Except Err ℚ) (p : Process) :
    Except Err Process :=
  if p.multifunctional then
    match partitionFns p.functions with
    | .error e => .error e
    | .ok (fns, aset) =>
      match getterList getter aset with
      | .error e => .error e
      | .ok gs =>
        if gs.sum = 0 then .error .zeroDivisionError
        else
          match assignFactors getter gs.sum fns with
          | .error e => .error e
          | .ok fns' => .ok ⟨fns'⟩
  else .ok p

/-- `allocation_strategies.get(strategy_label, property_allocation(strategy_label))`:
the registered `equal` and `manual` getters, and the property getter as the
fallback for every other label (allocation.py lines 128-148). -/
def getterFor (label : String) : Fn → Except Err ℚ :=
  if label = "equal" then fun _ => .ok 1
  else if label = "manual" then fun f => .ok (f.allocation_factor.getD 1)
  else fun f => get_property_value f label

/-- Python truthiness of an optional string (`if self.get("allocation")`,
`if not strategy_label`). -/
def strTruthy : Option String → Bool
  | none => false
  | some s => !s.isEmpty

/-- Strategy-label resolution inside `Process.allocate`: explicit argument
(`is None` test), else the process's own `allocation` entry (truthiness
test), else the database's `default_allocation`; `ValueError` when the
result is falsy. -/
def resolve_strategy_label (arg procAlloc dbDefault : Option String) :
    Except Err String :=
  let label :=
    match arg with
    | some s => some s
    | none => if strTruthy procAlloc then procAlloc else dbDefault
  if strTruthy label then .ok (label.getD "") else .error .valueError

/-- Result of `Process.allocate`: the sentinel `NoAllocationNeeded` or the
process after allocation. -/
inductive AllocateOutcome where
  | noAllocationNeeded (p : Process)
  | allocated (p : Process)
deriving DecidableEq, Repr

/-- `Process.allocate(strategy_label)` (node_classes.py lines 342-377):
sentinel when `skip_allocation` is truthy or the process is not
multifunctional; otherwise resolve the strategy label and run
`generic_allocation` with the corresponding getter. -/
def Process.allocate (p : Process) (skip_allocation : Bool)
    (arg procAlloc dbDefault : Option String) : Except Err AllocateOutcome :=
  if skip_allocation || !p.multifunctional then .ok (.noAllocationNeeded p)
  else
    match resolve_strategy_label arg procAlloc dbDefault with
    | .error e => .error e
    | .ok label =>
      match generic_allocation (getterFor label) p with
      | .error e => .error e
      | .ok p' => .ok (.allocated p')

/-! ## Table pipeline (database.py)

The node and exchange tables produced by `get_tables`, and the
`Join` / `Mutate` / `Build` pipeline run over them by `process()`.
`pd.NA` / `NaN` entries are `none`; the numeric dtype is `ℝ` because
`allocate_distributions` uses `np.log`. -/

/-- A row of the node table: columns
`id, type, processor, allocation_factor, substitute, substitution_factor`. -/
structure NodeRow where
  id : ℕ
  ntype : String
  processor : Option ℕ
  allocation_factor : Option ℝ
  substitute : Option ℕ
  substitution_factor : Option ℝ

/-- A row of the exchange table: columns
`input, output, type, amount` plus the uncertainty fields. -/
structure ExcRow where
  input : Option ℕ
  output : Option ℕ
  etype : String
  amount : ℝ
  uncertainty_type : Option ℕ
  loc : Option ℝ
  scale : Option ℝ
  shape : Option ℝ
  minimum : Option ℝ
  maximum : Option ℝ

/-- A row after `Join.exchanges_to_functions`: the exchange columns with
`output` replaced by the function's `id`, plus the kept
`allocation_factor` of the function. -/
structure JoinedRow where
  input : Option ℕ
  output : ℕ
  etype : String
  amount : ℝ
  uncertainty_type : Option ℕ
  loc : Option ℝ
  scale : Option ℝ
  shape : Option ℝ
  minimum : Option ℝ
  maximum : Option ℝ
  allocation_factor : Option ℝ

/-- A row of the serialized matrix relations:
`row, col, amount, flip` plus the uncertainty fields. -/
structure MatrixRow where
  row : Option ℕ
  col : ℕ
  amount : ℝ
  flip : Bool
  uncertainty_type : Option ℕ
  loc : Option ℝ
  scale : Option ℝ
  shape : Option ℝ
  minimum : Option ℝ
  maximum : Option ℝ

/-- `stats_arrays` distribution ids (the integers stored in the
`uncertainty_type` column). -/
def sa_UndefinedUncertainty_id : ℕ := 0

def sa_NoUncertainty_id : ℕ := 1

def sa_LognormalUncertainty_id : ℕ := 2

def sa_NormalUncertainty_id : ℕ := 3

def sa_UniformUncertainty_id : ℕ := 4

def sa_TriangularUncertainty_id : ℕ := 5

def sa_WeibullUncertainty_id : ℕ := 8

def sa_GammaUncertainty_id : ℕ := 9

def sa_GeneralizedExtremeValueUncertainty_id : ℕ := 11

/-- The `standard` list of `Mutate.allocate_distributions` as it actually
matches the integer `uncertainty_type` column: the source appends
`sa.UndefinedUncertainty` and `sa.NoUncertainty` (the class objects, not
their `.id`s) to the six ids, and a class object never equals an integer
under `isin`, so only these six ids ever match. -/
def standard_matchable_ids : List ℕ :=
  [sa_NormalUncertainty_id, sa_UniformUncertainty_id,
   sa_TriangularUncertainty_id, sa_WeibullUncertainty_id,
   sa_GammaUncertainty_id, sa_GeneralizedExtremeValueUncertainty_id]

/-- `df["uncertainty_type"].isin(ids)`: `NaN` matches nothing. -/
def utIsIn (ut : Option ℕ) (ids : List ℕ) : Bool :=
  match ut with
  | none => false
  | some v => v ∈ ids

/-- `Mutate.allocate_amount`:
`df["amount"] = df["allocation_factor"].fillna(1) * df["amount"]`. -/
def allocate_amount (df : List JoinedRow) : List JoinedRow :=
  df.map fun r => {r with amount := r.allocation_factor.getD 1 * r.amount}

/-- `Mutate.allocate_distributions`: rows whose `uncertainty_type` is in
the (actually matchable part of the) `standard` list get
`loc, scale, minimum, maximum` multiplied by `allocation_factor.fillna(1)`;
lognormal rows get `loc += log(allocation_factor.fillna(1))`; all other
rows (including, because of the class-vs-id slip, the undefined and
no-uncertainty rows) are left unmodified.  A `NaN` parameter stays `NaN`
under either arithmetic. -/
noncomputable def allocate_distributions (df : List JoinedRow) : List JoinedRow :=
  df.map fun r =>
    let a : ℝ := r.allocation_factor.getD 1
    if utIsIn r.uncertainty_type standard_matchable_ids then
      {r with
        loc := r.loc.map (· * a),
        scale := r.scale.map (· * a),
        minimum := r.minimum.map (· * a),
        maximum := r.maximum.map (· * a)}
    else if utIsIn r.uncertainty_type [sa_LognormalUncertainty_id] then
      {r with loc := r.loc.map (· + Real.log a)}
    else r

/-- `Mutate.set_default_uncertainty_values`: missing `uncertainty_type`
becomes `UndefinedUncertainty`; undefined/no-uncertainty rows without a
`loc` get the exchange amount as `loc`. -/
def set_default_uncertainty_values (df : List ExcRow) : List ExcRow :=
  df.map fun r =>
    let ut := r.uncertainty_type.getD sa_UndefinedUncertainty_id
    let r' := {r with uncertainty_type := some ut}
    if (ut = sa_UndefinedUncertainty_id ∨ ut = sa_NoUncertainty_id)
        ∧ r'.loc.isNone then
      {r' with loc := some r'.amount}
    else r'

/-- `Join.exchanges_to_functions`: keep the exchanges whose type is in
`exchange_types`, keep the nodes with a non-null `processor` (the
functions), and inner-join on `processor = output`; the joined row keeps
the exchange columns with `output` renamed to the function's `id`, plus
the function's `allocation_factor`. -/
def exchanges_to_functions (nodes : List NodeRow) (exchanges : List ExcRow)
    (exchange_types : List String) : List JoinedRow :=
  let excs := exchanges.filter fun e => e.etype ∈ exchange_types
  let functions := nodes.filter fun n => n.processor.isSome
  functions.flatMap fun n =>
    (excs.filter fun e => e.output = n.processor).map fun e =>
      { input := e.input, output := n.id, etype := e.etype,
        amount := e.amount, uncertainty_type := e.uncertainty_type,
        loc := e.loc, scale := e.scale, shape := e.shape,
        minimum := e.minimum, maximum := e.maximum,
        allocation_factor := n.allocation_factor }

/-- `Join.production_exchanges_to_functions`: keep the production
exchanges, join each function to its own production edges
(`(id, processor) = (input, output)`); nothing extra is kept. -/
def production_exchanges_to_functions (nodes : List NodeRow)
    (exchanges : List ExcRow) : List JoinedRow :=
  let excs := exchanges.filter fun e => e.etype = "production"
  let functions := nodes.filter fun n => n.processor.isSome
  functions.flatMap fun n =>
    (excs.filter fun e => e.input = some n.id ∧ e.output = n.processor).map
      fun e =>
        { input := e.input, output := n.id, etype := e.etype,
          amount := e.amount, uncertainty_type := e.uncertainty_type,
          loc := e.loc, scale := e.scale, shape := e.shape,
          minimum := e.minimum, maximum := e.maximum,
          allocation_factor := none }

/-- `Build.allocated`: join, allocate the amounts, allocate the
distributions, and rename `input`/`output` to `row`/`col` (the `flip`
column is added by the callers). -/
noncomputable def Build_allocated (nodes : List NodeRow) (exchanges : List ExcRow)
    (exchange_types : List String) (flip : Bool) : List MatrixRow :=
  (allocate_distributions
      (allocate_amount (exchanges_to_functions nodes exchanges exchange_types))).map
    fun r =>
      { row := r.input, col := r.output, amount := r.amount, flip := flip,
        uncertainty_type := r.uncertainty_type, loc := r.loc,
        scale := r.scale, shape := r.shape, minimum := r.minimum,
        maximum := r.maximum }

/-- `Build.consumption`: allocated technosphere rows with `flip = True`. -/
noncomputable def Build_consumption (nodes : List NodeRow) (exchanges : List ExcRow) :
    List MatrixRow :=
  Build_allocated nodes exchanges ["technosphere"] true

/-- `Build.biosphere`: allocated biosphere rows with `flip = False`. -/
noncomputable def Build_biosphere (nodes : List NodeRow) (exchanges : List ExcRow) :
    List MatrixRow :=
  Build_allocated nodes exchanges ["biosphere"] false

/-- `Build.production`: each function's own production edges, unallocated,
with `flip = False` and `input`/`output` renamed to `row`/`col`. -/
def Build_production (nodes : List NodeRow) (exchanges : List ExcRow) :
    List MatrixRow :=
  (production_exchanges_to_functions nodes exchanges).map fun r =>
    { row := r.input, col := r.output, amount := r.amount, flip := false,
      uncertainty_type := r.uncertainty_type, loc := r.loc,
      scale := r.scale, shape := r.shape, minimum := r.minimum,
      maximum := r.maximum }

/-- `Build.technosphere`: the concatenation of the consumption rows and
the production rows. -/
noncomputable def Build_technosphere (nodes : List NodeRow) (exchanges : List ExcRow) :
    List MatrixRow :=
  Build_consumption nodes exchanges ++ Build_production nodes exchanges

/-- `clearSubstitutionCols` erases the `substitute` and
`substitution_factor` columns of a node row; used to show the matrix
build never reads them. -/
def clearSubstitutionCols (n : NodeRow) : NodeRow :=
  {n with substitute := none, substitution_factor := none}

/-! ## Lemmas about the allocation engine -/

/-- A function belongs to the allocation set iff its
`substitution_factor` (default `0`) is non-positive. -/
def Fn.allocatable (f : Fn) : Bool := f.subst ≤ 0

theorem Fn.allocatable_iff (f : Fn) : f.allocatable = true ↔ ¬ f.subst > 0 := by
  simp [Fn.allocatable, not_lt]

theorem Fn.not_allocatable_iff (f : Fn) : f.allocatable = false ↔ f.subst > 0 := by
  simp [Fn.allocatable, not_le]

theorem Fn.subst_set_af (f : Fn) (x : Option ℚ) :
    ({f with allocation_factor := x}).subst = f.subst := rfl

theorem Fn.allocatable_set_af (f : Fn) (x : Option ℚ) :
    ({f with allocation_factor := x}).allocatable = f.allocatable := rfl

theorem Fn.set_af_self (f : Fn) :
    {f with allocation_factor := f.allocation_factor} = f := rfl

theorem partitionFns_ok_forall₂ {l l' a : List Fn}
    (h : partitionFns l = .ok (l', a)) :
    List.Forall₂ (fun x y =>
      (x.allocatable = true → y = x) ∧
      (x.allocatable = false → ∃ v, x.allocation_factor = some v ∧
        y = if 0 < v then {x with allocation_factor := some 0} else x)) l l' := by
  induction l generalizing l' a with
  | nil =>
    simp only [partitionFns] at h
    cases h
    exact List.Forall₂.nil
  | cons fn rest ih =>
    by_cases hgt : fn.subst > 0
    · cases haf : fn.allocation_factor with
      | none => simp only [partitionFns, if_pos hgt, haf] at h; cases h
      | some v =>
        cases hrec : partitionFns rest with
        | error e => simp only [partitionFns, if_pos hgt, haf, hrec] at h; cases h
        | ok pr =>
          obtain ⟨l₀, a₀⟩ := pr
          by_cases hv : 0 < v
          · simp only [partitionFns, if_pos hgt, haf, hrec, if_pos hv] at h
            cases h
            exact List.Forall₂.cons
              ⟨fun hall => absurd hgt ((Fn.allocatable_iff fn).mp hall),
               fun _ => ⟨v, haf, by rw [if_pos hv]⟩⟩ (ih hrec)
          · simp only [partitionFns, if_pos hgt, haf, hrec, if_neg hv] at h
            cases h
            exact List.Forall₂.cons
              ⟨fun hall => absurd hgt ((Fn.allocatable_iff fn).mp hall),
               fun _ => ⟨v, haf, by rw [if_neg hv]⟩⟩ (ih hrec)
    · cases hrec : partitionFns rest with
      | error e => simp only [partitionFns, if_neg hgt, hrec] at h; cases h
      | ok pr =>
        obtain ⟨l₀, a₀⟩ := pr
        simp only [partitionFns, if_neg hgt, hrec] at h
        cases h
        exact List.Forall₂.cons
          ⟨fun _ => rfl,
           fun hna => absurd ((Fn.not_allocatable_iff fn).mp hna) hgt⟩ (ih hrec)

theorem partitionFns_ok_aset {l l' a : List Fn}
    (h : partitionFns l = .ok (l', a)) : a = l.filter Fn.allocatable := by
  induction l generalizing l' a with
  | nil => simp only [partitionFns] at h; cases h; rfl
  | cons fn rest ih =>
    by_cases hgt : fn.subst > 0
    · have hfil : fn.allocatable = false := (Fn.not_allocatable_iff fn).mpr hgt
      cases haf : fn.allocation_factor with
      | none => simp only [partitionFns, if_pos hgt, haf] at h; cases h
      | some v =>
        cases hrec : partitionFns rest with
        | error e => simp only [partitionFns, if_pos hgt, haf, hrec] at h; cases h
        | ok pr =>
          obtain ⟨l₀, a₀⟩ := pr
          by_cases hv : 0 < v
          · simp only [partitionFns, if_pos hgt, haf, hrec, if_pos hv] at h
            cases h
            simp [List.filter_cons, hfil, ih hrec]
          · simp only [partitionFns, if_pos hgt, haf, hrec, if_neg hv] at h
            cases h
            simp [List.filter_cons, hfil, ih hrec]
    · cases hrec : partitionFns rest with
      | error e => simp only [partitionFns, if_neg hgt, hrec] at h; cases h
      | ok pr =>
        obtain ⟨l₀, a₀⟩ := pr
        simp only [partitionFns, if_neg hgt, hrec] at h
        cases h
        have hfil : fn.allocatable = true := by
          rw [Fn.allocatable_iff]; exact hgt
        simp [List.filter_cons, hfil, ih hrec]

theorem partitionFns_err_of_missing {l : List Fn} {fn : Fn}
    (hmem : fn ∈ l) (hgt : fn.subst > 0) (haf : fn.allocation_factor = none) :
    partitionFns l = .error .keyError := by
  induction l with
  | nil => cases hmem
  | cons hd rest ih =>
    rcases List.mem_cons.mp hmem with rfl | hmem'
    · simp only [partitionFns, if_pos hgt, haf]
    · simp only [partitionFns]
      split
      · cases hhd : hd.allocation_factor with
        | none => rfl
        | some v => rw [ih hmem']
      · rw [ih hmem']

theorem partitionFns_id_of_stable {l : List Fn}
    (h : ∀ fn ∈ l, fn.allocatable = false →
      ∃ w, fn.allocation_factor = some w ∧ ¬ 0 < w) :
    partitionFns l = .ok (l, l.filter Fn.allocatable) := by
  induction l with
  | nil => rfl
  | cons fn rest ih =>
    have hrest := ih fun x hx => h x (List.mem_cons_of_mem _ hx)
    simp only [partitionFns]
    split
    · rename_i hgt
      obtain ⟨w, hw, hwle⟩ :=
        h fn (List.mem_cons_self _ _) ((Fn.not_allocatable_iff fn).mpr hgt)
      rw [hw, hrest]
      simp only [if_neg hwle]
      have hfil : fn.allocatable = false := (Fn.not_allocatable_iff fn).mpr hgt
      simp [List.filter_cons, hfil]
    · rename_i hle
      rw [hrest]
      have hfil : fn.allocatable = true := by rw [Fn.allocatable_iff]; exact hle
      simp [List.filter_cons, hfil]

theorem getterList_ok_forall₂ {g : Fn → Except Err ℚ} {l : List Fn}
    {gs : List ℚ} (h : getterList g l = .ok gs) :
    List.Forall₂ (fun fn v => g fn = .ok v) l gs := by
  induction l generalizing gs with
  | nil => simp only [getterList] at h; cases h; exact List.Forall₂.nil
  | cons fn rest ih =>
    cases hg : g fn with
    | error e => simp only [getterList, hg] at h; cases h
    | ok v =>
      cases hrec : getterList g rest with
      | error e => simp only [getterList, hg, hrec] at h; cases h
      | ok vs =>
        simp only [getterList, hg, hrec] at h
        cases h
        exact List.Forall₂.cons hg (ih hrec)

theorem getterList_of_forall₂ {g : Fn → Except Err ℚ} {l : List Fn}
    {gs : List ℚ} (h : List.Forall₂ (fun fn v => g fn = .ok v) l gs) :
    getterList g l = .ok gs := by
  induction h with
  | nil => rfl
  | cons hg _ ih => simp only [getterList, hg, ih]

theorem assignFactors_ok_forall₂ {g : Fn → Except Err ℚ} {t : ℚ}
    {l l'' : List Fn} (h : assignFactors g t l = .ok l'') :
    List.Forall₂ (fun x y =>
      (x.allocatable = false → y = x) ∧
      (x.allocatable = true → ∃ v, g x = .ok v ∧
        y = {x with allocation_factor := some (v / t)})) l l'' := by
  induction l generalizing l'' with
  | nil => simp only [assignFactors] at h; cases h; exact List.Forall₂.nil
  | cons fn rest ih =>
    by_cases hgt : fn.subst > 0
    · cases hrec : assignFactors g t rest with
      | error e => simp only [assignFactors, if_pos hgt, hrec] at h; cases h
      | ok l₀ =>
        simp only [assignFactors, if_pos hgt, hrec] at h
        cases h
        exact List.Forall₂.cons
          ⟨fun _ => rfl,
           fun hall => absurd hgt ((Fn.allocatable_iff fn).mp hall)⟩ (ih hrec)
    · cases hg : g fn with
      | error e => simp only [assignFactors, if_neg hgt, hg] at h; cases h
      | ok v =>
        cases hrec : assignFactors g t rest with
        | error e => simp only [assignFactors, if_neg hgt, hg, hrec] at h; cases h
        | ok l₀ =>
          simp only [assignFactors, if_neg hgt, hg, hrec] at h
          cases h
          exact List.Forall₂.cons
            ⟨fun hna => absurd ((Fn.not_allocatable_iff fn).mp hna) hgt,
             fun _ => ⟨v, hg, rfl⟩⟩ (ih hrec)

theorem assignFactors_filter_zip {g : Fn → Except Err ℚ} {t : ℚ}
    {l l'' : List Fn} {gs : List ℚ}
    (ha : assignFactors g t l = .ok l'')
    (hg : getterList g (l.filter Fn.allocatable) = .ok gs) :
    l''.filter Fn.allocatable =
      List.zipWith (fun fn v => {fn with allocation_factor := some (v / t)})
        (l.filter Fn.allocatable) gs := by
  induction l generalizing l'' gs with
  | nil =>
    simp only [assignFactors] at ha
    cases ha
    simp only [List.filter_nil, getterList] at hg ⊢
    cases hg
    rfl
  | cons fn rest ih =>
    by_cases hgt : fn.subst > 0
    · have hfil : fn.allocatable = false := (Fn.not_allocatable_iff fn).mpr hgt
      cases hrec : assignFactors g t rest with
      | error e => simp only [assignFactors, if_pos hgt, hrec] at ha; cases ha
      | ok l₀ =>
        simp only [assignFactors, if_pos hgt, hrec] at ha
        cases ha
        simp only [List.filter_cons, hfil, Bool.false_eq_true, if_false] at hg ⊢
        exact ih hrec hg
    · have hfil : fn.allocatable = true := by rw [Fn.allocatable_iff]; exact hgt
      cases hgv : g fn with
      | error e => simp only [assignFactors, if_neg hgt, hgv] at ha; cases ha
      | ok v =>
        cases hrec : assignFactors g t rest with
        | error e =>
          simp only [assignFactors, if_neg hgt, hgv, hrec] at ha; cases ha
        | ok l₀ =>
          simp only [assignFactors, if_neg hgt, hgv, hrec] at ha
          cases ha
          cases hgs : getterList g (rest.filter Fn.allocatable) with
          | error e => simp [List.filter_cons, hfil, getterList, hgv, hgs] at hg
          | ok vs =>
            simp only [List.filter_cons, hfil, if_true, getterList, hgv, hgs] at hg
            cases hg
            have hfil' : ({fn with allocation_factor := some (v / t)}).allocatable
                = true := hfil
            simp only [List.filter_cons, hfil, hfil', if_true, List.zipWith]
            exact congrArg _ (ih hrec hgs)

theorem assignFactors_of_fixpoint {g : Fn → Except Err ℚ} {t : ℚ}
    {l : List Fn}
    (h : ∀ fn ∈ l, fn.allocatable = true →
      ∃ v, g fn = .ok v ∧ fn.allocation_factor = some (v / t)) :
    assignFactors g t l = .ok l := by
  induction l with
  | nil => rfl
  | cons fn rest ih =>
    have hrest := ih fun x hx => h x (List.mem_cons_of_mem _ hx)
    by_cases hgt : fn.subst > 0
    · simp only [assignFactors, if_pos hgt, hrest]
    · have hfil : fn.allocatable = true := by rw [Fn.allocatable_iff]; exact hgt
      obtain ⟨v, hv, haf⟩ := h fn (List.mem_cons_self _ _) hfil
      simp only [assignFactors, if_neg hgt, hv, hrest]
      have : ({fn with allocation_factor := some (v / t)}) = fn := by
        rw [← haf]
      rw [this]

theorem forall₂_mem_right {α β : Type} {R : α → β → Prop} {l₁ : List α}
    {l₂ : List β} {b : β} (h : List.Forall₂ R l₁ l₂) (hb : b ∈ l₂) :
    ∃ a ∈ l₁, R a b := by
  induction h with
  | nil => cases hb
  | cons hr _ ih =>
    rcases List.mem_cons.mp hb with rfl | hb'
    · exact ⟨_, List.mem_cons_self _ _, hr⟩
    · obtain ⟨a, ha, har⟩ := ih hb'
      exact ⟨a, List.mem_cons_of_mem _ ha, har⟩

theorem zipWith_factor_sum {t : ℚ} : ∀ {l : List Fn} {gs : List ℚ},
    l.length = gs.length →
    ((List.zipWith (fun fn v => {fn with allocation_factor := some (v / t)}) l gs).map
      (fun fn => fn.allocation_factor.getD 0)).sum = gs.sum / t := by
  intro l
  induction l with
  | nil =>
    intro gs hlen
    cases gs with
    | nil => simp
    | cons v vs => cases hlen
  | cons fn rest ih =>
    intro gs hlen
    cases gs with
    | nil => cases hlen
    | cons v vs =>
      simp only [List.zipWith, List.map_cons, List.sum_cons, Option.getD_some,
        ih (Nat.succ_injective hlen), add_div]

theorem partition_stable_out {l l' a : List Fn}
    (h : partitionFns l = .ok (l', a)) :
    ∀ fn ∈ l', fn.allocatable = false →
      ∃ w, fn.allocation_factor = some w ∧ ¬ 0 < w := by
  intro fn hmem hna
  obtain ⟨x, _, hx⟩ := forall₂_mem_right (partitionFns_ok_forall₂ h) hmem
  by_cases hxa : x.allocatable = true
  · rw [hx.1 hxa] at hna
    rw [hna] at hxa
    cases hxa
  · obtain ⟨v, hv, hfn⟩ := hx.2 (Bool.eq_false_iff.mpr hxa)
    by_cases hvpos : 0 < v
    · rw [if_pos hvpos] at hfn
      exact ⟨0, by rw [hfn], lt_irrefl 0⟩
    · rw [if_neg hvpos] at hfn
      exact ⟨v, by rw [hfn, hv], hvpos⟩

theorem assign_stable_out {g : Fn → Except Err ℚ} {t : ℚ} {l l'' : List Fn}
    (h : assignFactors g t l = .ok l'') :
    ∀ fn ∈ l'', fn.allocatable = false → fn ∈ l := by
  intro fn hmem hna
  obtain ⟨x, hxl, hx⟩ := forall₂_mem_right (assignFactors_ok_forall₂ h) hmem
  by_cases hxa : x.allocatable = true
  · obtain ⟨v, _, hfn⟩ := hx.2 hxa
    rw [hfn] at hna
    rw [Fn.allocatable_set_af] at hna
    rw [hna] at hxa
    cases hxa
  · rw [hx.1 (Bool.eq_false_iff.mpr hxa)]
    exact hxl

theorem generic_allocation_ok_inv {g : Fn → Except Err ℚ} {p p' : Process}
    (hmf : p.multifunctional = true) (h : generic_allocation g p = .ok p') :
    ∃ fns aset gs, partitionFns p.functions = .ok (fns, aset) ∧
      getterList g aset = .ok gs ∧ ¬ gs.sum = 0 ∧
      assignFactors g gs.sum fns = .ok p'.functions := by
  simp only [generic_allocation, hmf, if_true] at h
  cases hp : partitionFns p.functions with
  | error e => simp only [hp] at h; cases h
  | ok pr =>
    obtain ⟨fns, aset⟩ := pr
    simp only [hp] at h
    cases hg : getterList g aset with
    | error e => simp only [hg] at h; cases h
    | ok gs =>
      simp only [hg] at h
      by_cases hz : gs.sum = 0
      · rw [if_pos hz] at h; cases h
      · rw [if_neg hz] at h
        cases ha : assignFactors g gs.sum fns with
        | error e => simp only [ha] at h; cases h
        | ok fns₂ =>
          simp only [ha] at h
          cases h
          exact ⟨fns, aset, gs, rfl, hg, hz, ha⟩

theorem generic_allocation_construct {g : Fn → Except Err ℚ} {p : Process}
    {fns aset fns₂ : List Fn} {gs : List ℚ}
    (hmf : p.multifunctional = true)
    (hp : partitionFns p.functions = .ok (fns, aset))
    (hg : getterList g aset = .ok gs) (hs : ¬ gs.sum = 0)
    (ha : assignFactors g gs.sum fns = .ok fns₂) :
    generic_allocation g p = .ok ⟨fns₂⟩ := by
  simp only [generic_allocation, hmf, if_true, hp, hg, if_neg hs, ha]

theorem generic_allocation_zero_err {g : Fn → Except Err ℚ} {p : Process}
    {fns aset : List Fn} {gs : List ℚ}
    (hmf : p.multifunctional = true)
    (hp : partitionFns p.functions = .ok (fns, aset))
    (hg : getterList g aset = .ok gs) (hz : gs.sum = 0) :
    generic_allocation g p = .error .zeroDivisionError := by
  simp only [generic_allocation, hmf, if_true, hp, hg, if_pos hz]

theorem generic_allocation_partition_err {g : Fn → Except Err ℚ}
    {p : Process} {e : Err} (hmf : p.multifunctional = true)
    (hp : partitionFns p.functions = .error e) :
    generic_allocation g p = .error e := by
  simp only [generic_allocation, hmf, if_true, hp]

theorem partitionFns_ok_filter {l l' a : List Fn}
    (h : partitionFns l = .ok (l', a)) :
    l'.filter Fn.allocatable = l.filter Fn.allocatable := by
  have h₂ := partitionFns_ok_forall₂ h
  clear h
  induction h₂ with
  | nil => rfl
  | cons hr hrest ih =>
    rename_i x y l₁ l₂
    by_cases hxa : x.allocatable = true
    · rw [hr.1 hxa]
      simp only [List.filter_cons, hxa, if_true, ih]
    · have hna := Bool.eq_false_iff.mpr hxa
      obtain ⟨v, _, hy⟩ := hr.2 hna
      have hya : y.allocatable = false := by
        rw [hy]
        by_cases hv : 0 < v
        · rw [if_pos hv]; exact hna
        · rw [if_neg hv]; exact hna
      simp only [List.filter_cons, hna, hya, Bool.false_eq_true, if_false, ih]

theorem generic_allocation_ok_length {g : Fn → Except Err ℚ} {p p' : Process}
    (hmf : p.multifunctional = true) (h : generic_allocation g p = .ok p') :
    p'.functions.length = p.functions.length := by
  obtain ⟨fns, aset, gs, hp, hg, hz, ha⟩ := generic_allocation_ok_inv hmf h
  have h₁ := (partitionFns_ok_forall₂ hp).length_eq
  have h₂ := (assignFactors_ok_forall₂ ha).length_eq
  omega

theorem allocate_allocated_inv {p p' : Process} {skip : Bool}
    {arg procAlloc dbDefault : Option String}
    (h : Process.allocate p skip arg procAlloc dbDefault = .ok (.allocated p')) :
    skip = false ∧ p.multifunctional = true ∧
      ∃ label, resolve_strategy_label arg procAlloc dbDefault = .ok label ∧
        generic_allocation (getterFor label) p = .ok p' := by
  by_cases hc : (skip || !p.multifunctional) = true
  · simp only [Process.allocate, hc, if_true] at h
    cases h
  · have hc' := hc
    simp only [Bool.or_eq_true, Bool.not_eq_true', not_or] at hc'
    obtain ⟨hskip, hmf⟩ := hc'
    refine ⟨by simpa using hskip, by simpa using hmf, ?_⟩
    simp only [Process.allocate, hc, if_false] at h
    cases hr : resolve_strategy_label arg procAlloc dbDefault with
    | error e => simp only [hr] at h; cases h
    | ok label =>
      simp only [hr] at h
      cases hga : generic_allocation (getterFor label) p with
      | error e => simp only [hga] at h; cases h
      | ok p₂ =>
        simp only [hga] at h
        cases h
        exact ⟨label, rfl, hga⟩

theorem allocate_allocated_construct {p p' : Process} {label : String}
    {arg procAlloc dbDefault : Option String}
    (hmf : p.multifunctional = true)
    (hr : resolve_strategy_label arg procAlloc dbDefault = .ok label)
    (hga : generic_allocation (getterFor label) p = .ok p') :
    Process.allocate p false arg procAlloc dbDefault = .ok (.allocated p') := by
  have hc : (false || !p.multifunctional) = false := by simp [hmf]
  simp only [Process.allocate, hc, Bool.false_eq_true, if_false, hr, hga]

/-- Common core for the idempotence results: if a successful run produced
`p'`, and on `p'` the getter again succeeds with a non-degenerate total in
such a way that every allocatable function already holds exactly the
factor the assignment loop would write, then a second run reproduces `p'`
unchanged. -/
theorem generic_idem_core {g : Fn → Except Err ℚ} {p p' : Process}
    (hmf : p.multifunctional = true)
    (h : generic_allocation g p = .ok p') {hs : List ℚ}
    (hg₂ : getterList g (p'.functions.filter Fn.allocatable) = .ok hs)
    (hz₂ : ¬ hs.sum = 0)
    (hfix : ∀ fn ∈ p'.functions, fn.allocatable = true →
      ∃ v, g fn = .ok v ∧ fn.allocation_factor = some (v / hs.sum)) :
    generic_allocation g p' = .ok p' := by
  obtain ⟨fns, aset, gs, hp, hg, hz, ha⟩ := generic_allocation_ok_inv hmf h
  have hstab : ∀ fn ∈ p'.functions, fn.allocatable = false →
      ∃ w, fn.allocation_factor = some w ∧ ¬ 0 < w := fun fn hm hna =>
    partition_stable_out hp fn (assign_stable_out ha fn hm hna) hna
  have hp₂ := partitionFns_id_of_stable hstab
  have hlen := generic_allocation_ok_length hmf h
  have hmf₂ : p'.multifunctional = true := by
    simp only [Process.multifunctional, decide_eq_true_eq, hlen] at hmf ⊢
    exact hmf
  have := generic_allocation_construct hmf₂ hp₂ hg₂ hz₂
    (assignFactors_of_fixpoint hfix)
  exact this

theorem getterList_zipWith_of_inv {g : Fn → Except Err ℚ} {t : ℚ}
    {l : List Fn} {gs : List ℚ}
    (hinv : ∀ f x, g {f with allocation_factor := x} = g f)
    (h : List.Forall₂ (fun fn v => g fn = .ok v) l gs) :
    getterList g
      (List.zipWith (fun fn v => {fn with allocation_factor := some (v / t)}) l gs)
      = .ok gs := by
  induction l generalizing gs with
  | nil => cases h; rfl
  | cons fn rest ih =>
    cases h with
    | cons hr hrest =>
      rename_i v vs
      simp only [List.zipWith, getterList, hinv fn (some (v / t)), hr, ih hrest]

theorem zipWith_mem_fix {g : Fn → Except Err ℚ} {t : ℚ}
    {l : List Fn} {gs : List ℚ}
    (hinv : ∀ f x, g {f with allocation_factor := x} = g f)
    (h : List.Forall₂ (fun fn v => g fn = .ok v) l gs) :
    ∀ y ∈ List.zipWith
        (fun fn v => {fn with allocation_factor := some (v / t)}) l gs,
      ∃ v, g y = .ok v ∧ y.allocation_factor = some (v / t) := by
  induction l generalizing gs with
  | nil => intro y hy; cases h; cases hy
  | cons fn rest ih =>
    cases h with
    | cons hr hrest =>
      rename_i v vs
      intro y hy
      rcases List.mem_cons.mp hy with rfl | hy'
      · exact ⟨v, by rw [hinv fn (some (v / t))]; exact hr, rfl⟩
      · exact ih hrest y hy'

/-- Idempotence of `generic_allocation` for any getter that does not read
the `allocation_factor` entry it writes (the `equal` getter and every
property getter). -/
theorem generic_idem_invariant {g : Fn → Except Err ℚ} {p p' : Process}
    (hinv : ∀ f x, g {f with allocation_factor := x} = g f)
    (h : generic_allocation g p = .ok p') :
    generic_allocation g p' = .ok p' := by
  by_cases hmf : p.multifunctional = true
  · obtain ⟨fns, aset, gs, hp, hg, hz, ha⟩ := generic_allocation_ok_inv hmf h
    have haset := partitionFns_ok_aset hp
    have hfilter := partitionFns_ok_filter hp
    have hgfns : getterList g (fns.filter Fn.allocatable) = .ok gs := by
      rw [hfilter, ← haset]; exact hg
    have hzip := assignFactors_filter_zip ha hgfns
    have hpairs := getterList_ok_forall₂ hgfns
    have hg₂ : getterList g (p'.functions.filter Fn.allocatable) = .ok gs := by
      rw [hzip]; exact getterList_zipWith_of_inv hinv hpairs
    have hfix : ∀ fn ∈ p'.functions, fn.allocatable = true →
        ∃ v, g fn = .ok v ∧ fn.allocation_factor = some (v / gs.sum) := by
      intro fn hm hall
      have hmz : fn ∈ p'.functions.filter Fn.allocatable :=
        List.mem_filter.mpr ⟨hm, hall⟩
      rw [hzip] at hmz
      exact zipWith_mem_fix hinv hpairs fn hmz
    exact generic_idem_core hmf h hg₂ hz hfix
  · have hmf' : p.multifunctional = false := Bool.eq_false_iff.mpr hmf
    simp only [generic_allocation, hmf', Bool.false_eq_true, if_false] at h
    cases h
    simp only [generic_allocation, hmf', Bool.false_eq_true, if_false]

theorem zipWith_mem_factor {t : ℚ} : ∀ {l : List Fn} {gs : List ℚ} {y : Fn},
    y ∈ List.zipWith
      (fun fn v => {fn with allocation_factor := some (v / t)}) l gs →
    ∃ v, y.allocation_factor = some (v / t) := by
  intro l
  induction l with
  | nil => intro gs y hy; cases hy
  | cons fn rest ih =>
    intro gs y hy
    cases gs with
    | nil => cases hy
    | cons v vs =>
      rcases List.mem_cons.mp hy with rfl | hy'
      · exact ⟨v, rfl⟩
      · exact ih hy'

theorem list_sum_map_div {t : ℚ} : ∀ l : List ℚ,
    (l.map (fun x => x / t)).sum = l.sum / t := by
  intro l
  induction l with
  | nil => simp
  | cons x xs ih => simp [ih, add_div]

theorem getterList_zipWith_manual {t : ℚ} : ∀ {l : List Fn} {gs : List ℚ},
    l.length = gs.length →
    getterList (fun f => .ok (f.allocation_factor.getD 1))
      (List.zipWith (fun fn v => {fn with allocation_factor := some (v / t)}) l gs)
      = .ok (gs.map (fun x => x / t)) := by
  intro l
  induction l with
  | nil =>
    intro gs hlen
    cases gs with
    | nil => rfl
    | cons v vs => cases hlen
  | cons fn rest ih =>
    intro gs hlen
    cases gs with
    | nil => cases hlen
    | cons v vs =>
      simp only [List.zipWith, List.map_cons, getterList, Option.getD_some,
        ih (Nat.succ_injective hlen)]

/-- Idempotence of `generic_allocation` for the `manual` getter: a second
run reads back the factors the first run wrote, whose total is exactly 1,
so dividing by it changes nothing. -/
theorem generic_idem_manual {p p' : Process}
    (h : generic_allocation (fun f => .ok (f.allocation_factor.getD 1)) p
      = .ok p') :
    generic_allocation (fun f => .ok (f.allocation_factor.getD 1)) p'
      = .ok p' := by
  set g : Fn → Except Err ℚ := fun f => .ok (f.allocation_factor.getD 1) with hgdef
  by_cases hmf : p.multifunctional = true
  · obtain ⟨fns, aset, gs, hp, hg, hz, ha⟩ := generic_allocation_ok_inv hmf h
    have haset := partitionFns_ok_aset hp
    have hfilter := partitionFns_ok_filter hp
    have hgfns : getterList g (fns.filter Fn.allocatable) = .ok gs := by
      rw [hfilter, ← haset]; exact hg
    have hzip := assignFactors_filter_zip ha hgfns
    have hlen := (getterList_ok_forall₂ hgfns).length_eq
    have hg₂ : getterList g (p'.functions.filter Fn.allocatable)
        = .ok (gs.map (fun x => x / gs.sum)) := by
      rw [hzip]; exact getterList_zipWith_manual hlen
    have hsum : (gs.map (fun x => x / gs.sum)).sum = 1 := by
      rw [list_sum_map_div, div_self hz]
    have hz₂ : ¬ (gs.map (fun x => x / gs.sum)).sum = 0 := by
      rw [hsum]; exact one_ne_zero
    have hfix : ∀ fn ∈ p'.functions, fn.allocatable = true →
        ∃ v, g fn = .ok v ∧
          fn.allocation_factor = some (v / (gs.map (fun x => x / gs.sum)).sum) := by
      intro fn hm hall
      have hmz : fn ∈ p'.functions.filter Fn.allocatable :=
        List.mem_filter.mpr ⟨hm, hall⟩
      rw [hzip] at hmz
      obtain ⟨v, hv⟩ := zipWith_mem_factor hmz
      refine ⟨v / gs.sum, by simp only [hgdef, hv, Option.getD_some], ?_⟩
      rw [hsum, div_one]
      exact hv
    exact generic_idem_core hmf h hg₂ hz₂ hfix
  · have hmf' : p.multifunctional = false := Bool.eq_false_iff.mpr hmf
    simp only [generic_allocation, hmf', Bool.false_eq_true, if_false] at h
    cases h
    simp only [generic_allocation, hmf', Bool.false_eq_true, if_false]

theorem forall₂_comp {α β γ : Type} {R : α → β → Prop} {S : β → γ → Prop}
    {T : α → γ → Prop} (hc : ∀ a b c, R a b → S b c → T a c) :
    ∀ {l₁ : List α} {l₂ : List β} {l₃ : List γ},
    List.Forall₂ R l₁ l₂ → List.Forall₂ S l₂ l₃ → List.Forall₂ T l₁ l₃ := by
  intro l₁ l₂ l₃ h₁ h₂
  induction h₁ generalizing l₃ with
  | nil => cases h₂; exact .nil
  | cons hr _ ih =>
    cases h₂ with
    | cons hs hsrest => exact .cons (hc _ _ _ hr hs) (ih hsrest)

/-- `get_property_value` never reads the `allocation_factor` entry. -/
theorem get_property_value_set_af (f : Fn) (x : Option ℚ) (label : String) :
    get_property_value {f with allocation_factor := x} label
      = get_property_value f label := rfl

/-! ## Claim theorems -/

def pC1 : Process := ⟨[⟨some (-1), some 1, none, [4]⟩, ⟨none, none, none, [6]⟩]⟩

def pC1post : Process :=
  ⟨[⟨some (-1), some 1, none, [4]⟩, ⟨some 1, none, none, [6]⟩]⟩

/-- C1 (counterexample): on a multifunctional process whose substituted
function carries a negative stored `allocation_factor`, `allocate()` with
the `equal` strategy completes successfully, yet that function's factor is
`-1`, not `0.0`: the reset only fires when the stored factor is positive. -/
theorem claim_C1_counterexample :
    Process.allocate pC1 false (some "equal") none none
        = .ok (.allocated pC1post)
      ∧ pC1post.functions.map (fun fn => fn.subst) = [1, 0]
      ∧ pC1post.functions.map (fun fn => fn.allocation_factor)
        = [some (-1), some 1] := by
  refine ⟨?_, by norm_num [pC1post, Fn.subst], by norm_num [pC1post]⟩
  norm_num [Process.allocate, pC1, pC1post, Process.multifunctional,
    show resolve_strategy_label (some "equal") none none = Except.ok "equal"
      from rfl,
    getterFor, generic_allocation,
    partitionFns, getterList, assignFactors, Fn.subst]

/-- C1 (amended): after `allocate()` returns an allocated result, the
stored factors of the allocatable functions (`substitution_factor` absent
or `<= 0`) sum exactly to 1; a function with `substitution_factor > 0`
whose prior factor was positive is reset to exactly `0.0`, while one whose
prior factor was `<= 0` keeps that prior value. -/
theorem claim_C1_amended {p p' : Process} {skip : Bool}
    {arg procAlloc dbDefault : Option String}
    (h : Process.allocate p skip arg procAlloc dbDefault
      = .ok (.allocated p')) :
    ((p'.functions.filter Fn.allocatable).map
        (fun fn => fn.allocation_factor.getD 0)).sum = 1
      ∧ List.Forall₂ (fun pre post => ∀ v : ℚ,
          pre.allocatable = false → pre.allocation_factor = some v →
            post.allocation_factor = some (if 0 < v then 0 else v))
        p.functions p'.functions := by
  obtain ⟨hskip, hmf, label, hr, hga⟩ := allocate_allocated_inv h
  obtain ⟨fns, aset, gs, hp, hg, hz, ha⟩ := generic_allocation_ok_inv hmf hga
  have haset := partitionFns_ok_aset hp
  have hfilter := partitionFns_ok_filter hp
  have hgfns : getterList (getterFor label) (fns.filter Fn.allocatable)
      = .ok gs := by
    rw [hfilter, ← haset]; exact hg
  constructor
  · have hzip := assignFactors_filter_zip ha hgfns
    have hlen := (getterList_ok_forall₂ hgfns).length_eq
    rw [hzip, zipWith_factor_sum hlen, div_self hz]
  · refine forall₂_comp ?_ (partitionFns_ok_forall₂ hp)
      (assignFactors_ok_forall₂ ha)
    intro a b c hab hbc v hna hav
    obtain ⟨v', hav', hb⟩ := hab.2 hna
    rw [hav] at hav'
    cases hav'
    by_cases hv : 0 < v
    · rw [if_pos hv] at hb
      have hba : b.allocatable = false := by
        rw [hb, Fn.allocatable_set_af]; exact hna
      rw [hbc.1 hba, hb, if_pos hv]
    · rw [if_neg hv] at hb
      subst hb
      rw [hbc.1 hna, hav, if_neg hv]

def pW1 : Process := ⟨[⟨some 2, some 1, none, [4]⟩, ⟨none, none, none, [6]⟩]⟩

def pW1post : Process :=
  ⟨[⟨some 0, some 1, none, [4]⟩, ⟨some 1, none, none, [6]⟩]⟩

/-- C1 (witness): the amended statement evaluated on a concrete process
whose substituted function held the positive factor `2`. -/
theorem claim_C1_witness :
    ((pW1post.functions.filter Fn.allocatable).map
        (fun fn => fn.allocation_factor.getD 0)).sum = 1
      ∧ List.Forall₂ (fun pre post => ∀ v : ℚ,
          pre.allocatable = false → pre.allocation_factor = some v →
            post.allocation_factor = some (if 0 < v then 0 else v))
        pW1.functions pW1post.functions :=
  @claim_C1_amended pW1 pW1post false (some "equal") none none (by
    norm_num [Process.allocate, pW1, pW1post, Process.multifunctional,
      show resolve_strategy_label (some "equal") none none = Except.ok "equal"
        from rfl,
      getterFor, generic_allocation,
      partitionFns, getterList, assignFactors, Fn.subst])

/-- C5: when the getter values over the allocation set sum to zero,
`generic_allocation` on a multifunctional process fails with
`ZeroDivisionError`, and the state at the raise (the partitioned list,
which holds the only writes performed before the total is formed) leaves
every allocatable function exactly as it was. -/
theorem claim_C5 {g : Fn → Except Err ℚ} {p : Process} {fns aset : List Fn}
    {gs : List ℚ} (hmf : p.multifunctional = true)
    (hp : partitionFns p.functions = .ok (fns, aset))
    (hg : getterList g aset = .ok gs) (hz : gs.sum = 0) :
    generic_allocation g p = .error .zeroDivisionError ∧
      List.Forall₂ (fun pre post => pre.allocatable = true → post = pre)
        p.functions fns :=
  ⟨generic_allocation_zero_err hmf hp hg hz,
   (partitionFns_ok_forall₂ hp).imp (fun _ _ hab => hab.1)⟩


def pW5 : Process := ⟨[⟨some 1, none, none, [1]⟩, ⟨some (-1), none, none, [2]⟩]⟩

/-- C5 (witness): a concrete manual-strategy run whose stored factors `1`
and `-1` sum to zero. -/
theorem claim_C5_witness :
    generic_allocation (getterFor "manual") pW5
        = .error .zeroDivisionError ∧
      List.Forall₂ (fun pre post => pre.allocatable = true → post = pre)
        pW5.functions pW5.functions :=
  @claim_C5 (getterFor "manual") pW5 pW5.functions pW5.functions [1, -1]
    (by norm_num [pW5, Process.multifunctional])
    (by norm_num [pW5, partitionFns, Fn.subst])
    (by norm_num [pW5, getterList,
      show getterFor "manual" = (fun f => Except.ok (f.allocation_factor.getD 1))
        from rfl])
    (by norm_num)

/-- C6: if `allocate()` returned an allocated result, re-running it on the
result with the same strategy label and unchanged metadata returns exactly
the same factors, for the `equal` and `manual` strategies and every
property-based strategy (every other label). -/
theorem claim_C6 {p p' : Process} {skip : Bool}
    {arg procAlloc dbDefault : Option String}
    (h : Process.allocate p skip arg procAlloc dbDefault
      = .ok (.allocated p')) :
    Process.allocate p' skip arg procAlloc dbDefault
      = .ok (.allocated p') := by
  obtain ⟨hskip, hmf, label, hr, hga⟩ := allocate_allocated_inv h
  subst hskip
  have hga₂ : generic_allocation (getterFor label) p' = .ok p' := by
    by_cases hm : label = "manual"
    · subst hm
      have hMG : getterFor "manual"
          = (fun f => .ok (f.allocation_factor.getD 1)) := rfl
      rw [hMG] at hga ⊢
      exact generic_idem_manual hga
    · refine generic_idem_invariant ?_ hga
      intro f x
      by_cases he : label = "equal"
      · subst he; rfl
      · simp only [getterFor, if_neg he, if_neg hm]
        exact get_property_value_set_af f x label
  have hmf₂ : p'.multifunctional = true := by
    have hlen := generic_allocation_ok_length hmf hga
    simp only [Process.multifunctional, decide_eq_true_eq, hlen] at hmf ⊢
    exact hmf
  exact allocate_allocated_construct hmf₂ hr hga₂

def pW6 : Process := ⟨[⟨none, none, none, [1]⟩, ⟨none, none, none, [2]⟩]⟩

def pW6post : Process :=
  ⟨[⟨some (1/2), none, none, [1]⟩, ⟨some (1/2), none, none, [2]⟩]⟩

/-- C6 (witness): idempotence applied to a concrete equal-strategy run. -/
theorem claim_C6_witness :
    Process.allocate pW6post false (some "equal") none none
      = .ok (.allocated pW6post) :=
  @claim_C6 pW6 pW6post false (some "equal") none none (by
    norm_num [Process.allocate, pW6, pW6post, Process.multifunctional,
      show resolve_strategy_label (some "equal") none none = Except.ok "equal"
        from rfl,
      getterFor, generic_allocation,
      partitionFns, getterList, assignFactors, Fn.subst])

/-- C10: a function of a multifunctional process with
`substitution_factor > 0` but no `allocation_factor` key makes
`generic_allocation` fail with `KeyError` in the partition step, for any
getter — before any total or new factor is computed. -/
theorem claim_C10 {g : Fn → Except Err ℚ} {p : Process} {fn : Fn}
    (hmf : p.multifunctional = true) (hfn : fn ∈ p.functions)
    (hs : fn.subst > 0) (ha : fn.allocation_factor = none) :
    generic_allocation g p = .error .keyError :=
  generic_allocation_partition_err hmf
    (partitionFns_err_of_missing hfn hs ha)

def pW10 : Process := ⟨[⟨none, some 1, none, [1]⟩, ⟨none, none, none, [2]⟩]⟩

/-- C10 (witness): the `KeyError` evaluated on a concrete process. -/
theorem claim_C10_witness :
    generic_allocation (getterFor "equal") pW10 = .error .keyError :=
  @claim_C10 (getterFor "equal") pW10 ⟨none, some 1, none, [1]⟩
    (by norm_num [pW10, Process.multifunctional])
    (by norm_num [pW10])
    (by norm_num [Fn.subst])
    rfl

theorem processing_edge_error_eq {f : Fn} {e : Err}
    (h : f.processing_edge = .error e) : e = .validityError := by
  unfold Fn.processing_edge at h
  split at h
  · cases h; rfl
  · cases h

theorem lookupProp_isEmpty_false {props : List (String × PropVal)}
    {label : String} {pv : PropVal} (h : lookupProp props label = some pv) :
    props.isEmpty = false := by
  cases props with
  | nil => simp [lookupProp] at h
  | cons _ _ => rfl

def fC9 : Fn := ⟨none, none, none, []⟩

/-- C9 (counterexample): a function with zero production edges does not
fail — `processing_edge` returns `None`. -/
theorem claim_C9_counterexample :
    fC9.production_edge_amounts = [] ∧ fC9.processing_edge = .ok none :=
  ⟨rfl, rfl⟩

/-- C9 (amended): `processing_edge` raises the data-integrity
`ValidityError` only for more than one production edge; zero edges yields
`None`, and exactly one yields that edge. -/
theorem claim_C9_amended (f : Fn) :
    (f.production_edge_amounts.length > 1 →
        f.processing_edge = .error .validityError)
      ∧ (f.production_edge_amounts = [] → f.processing_edge = .ok none)
      ∧ (∀ a : ℚ, f.production_edge_amounts = [a] →
          f.processing_edge = .ok (some a)) := by
  refine ⟨fun h => ?_, fun h => ?_, fun a h => ?_⟩
  · simp [Fn.processing_edge, h]
  · simp [Fn.processing_edge, h]
  · simp [Fn.processing_edge, h]

def fC9w : Fn := ⟨none, none, none, [1, 2]⟩

/-- C9 (witness): the `ValidityError` branch evaluated at a function with
two production edges. -/
theorem claim_C9_witness : fC9w.processing_edge = .error .validityError :=
  (claim_C9_amended fC9w).1 (by norm_num [fC9w])

def fC7 : Fn := ⟨none, none, some [("mass", .num true 0)], [2]⟩

/-- C7 (counterexample): a legacy bare float `0.0` stored under the label
is present but is NOT returned directly — Python falsiness
(`if not prop`) raises the not-found `KeyError` instead. -/
theorem claim_C7_counterexample :
    lookupProp [("mass", PropVal.num true 0)] "mass"
        = some (.num true 0)
      ∧ get_property_value fC7 "mass" = .error .keyError :=
  ⟨rfl, rfl⟩

/-- C7 (amended): for a structured record holding an `amount`,
`get_property_value` returns `abs(processing_edge.amount) * amount` when
`normalize` (default false) is true — given the single processing edge —
and `amount` unmodified otherwise; a legacy bare float is returned
directly only when nonzero (`0.0` is falsy and raises the not-found
error instead). -/
theorem claim_C7_amended {f : Fn} {label : String}
    {props : List (String × PropVal)} (hp : f.properties = some props) :
    (∀ v : ℚ, lookupProp props label = some (.num true v) → v ≠ 0 →
        get_property_value f label = .ok v)
      ∧ (∀ (amt : ℚ) (nrm : Option Bool) (other : Bool) (e : ℚ),
          lookupProp props label = some (.record (some amt) nrm other) →
          f.production_edge_amounts = [e] →
          get_property_value f label
            = .ok (if nrm.getD false then |e| * amt else amt)) := by
  constructor
  · intro v hl hv
    have htr : (PropVal.num true v).truthy = true := by
      simp [PropVal.truthy, hv]
    simp [get_property_value, hp, lookupProp_isEmpty_false hl, hl, htr]
  · intro amt nrm other e hl he
    have htr : (PropVal.record (some amt) nrm other).truthy = true := by
      simp [PropVal.truthy]
    by_cases hn : nrm.getD false = true
    · simp [get_property_value, hp, lookupProp_isEmpty_false hl, hl, htr, hn,
        Fn.processing_edge, he]
    · simp [get_property_value, hp, lookupProp_isEmpty_false hl, hl, htr, hn]

def fC7w : Fn :=
  ⟨none, none, some [("mass", .record (some 3) (some true) true)], [-2]⟩

/-- C7 (witness): the normalized branch evaluated at a concrete function:
`abs(-2) * 3 = 6`. -/
theorem claim_C7_witness : get_property_value fC7w "mass" = .ok 6 := by
  have h := (@claim_C7_amended fC7w "mass"
      [("mass", .record (some 3) (some true) true)] rfl).2
    3 (some true) true (-2) rfl rfl
  norm_num at h
  exact h

def fC8 : Fn := ⟨none, none, some [("water", .record none (some false) false)], [1]⟩

/-- C8 (counterexample): a property present under the label (a structured
record without an `amount` entry) still raises the not-found `KeyError`,
refuting the claimed "present implies returns a value". -/
theorem claim_C8_counterexample :
    (lookupProp [("water", PropVal.record none (some false) false)]
        "water").isSome = true
      ∧ get_property_value fC8 "water" = .error .keyError :=
  ⟨rfl, rfl⟩

/-- C8 (amended): `get_property_value` fails with the not-found `KeyError`
iff the properties mapping is absent or empty, the named property is
absent, its stored value is falsy (zero number or empty record), or it is
a record lacking an `amount` entry (reached directly when `normalize` is
false, and after the processing-edge subscript succeeds when `normalize`
is true). -/
theorem claim_C8_amended (f : Fn) (label : String) :
    get_property_value f label = .error .keyError ↔
      (propsTruthy f.properties = false
        ∨ ∃ props, f.properties = some props ∧
            (lookupProp props label = none
              ∨ ∃ prop, lookupProp props label = some prop ∧
                  (prop.truthy = false
                    ∨ ∃ nrm other, prop = .record none nrm other ∧
                        prop.truthy = true ∧
                        (nrm.getD false = false
                          ∨ ∃ a, f.processing_edge = .ok (some a))))) := by
  cases hp : f.properties with
  | none => simp [get_property_value, propsTruthy, hp]
  | some props =>
    by_cases he : props.isEmpty = true
    · simp [get_property_value, propsTruthy, hp, he]
    · have he' : props.isEmpty = false := Bool.eq_false_iff.mpr he
      cases hl : lookupProp props label with
      | none => simp [get_property_value, propsTruthy, hp, he', hl]
      | some prop =>
        by_cases ht : prop.truthy = true
        · cases prop with
          | num isF v =>
            cases isF <;>
              simp [get_property_value, propsTruthy, hp, he', hl, ht]
          | record amt nrm other =>
            by_cases hn : nrm.getD false = true
            · cases hedge : f.processing_edge with
              | error e =>
                have hee := processing_edge_error_eq hedge
                subst hee
                cases amt with
                | some a0 =>
                  simp [get_property_value, propsTruthy, hp, he', hl, ht,
                    hn, hedge]
                | none =>
                  simp [get_property_value, propsTruthy, hp, he', hl, ht,
                    hn, hedge]
                  intro x hx
                  rcases hx with ⟨rfl, h2⟩ | ⟨rfl, h2⟩ <;> exact hn
              | ok oe =>
                cases oe with
                | none =>
                  cases amt with
                  | some a0 =>
                    simp [get_property_value, propsTruthy, hp, he', hl, ht,
                      hn, hedge]
                  | none =>
                    simp [get_property_value, propsTruthy, hp, he', hl, ht,
                      hn, hedge]
                    intro x hx
                    rcases hx with ⟨rfl, h2⟩ | ⟨rfl, h2⟩ <;> exact hn
                | some av =>
                  cases amt with
                  | some a0 =>
                    simp [get_property_value, propsTruthy, hp, he', hl, ht,
                      hn, hedge]
                  | none =>
                    simp [get_property_value, propsTruthy, hp, he', hl, ht,
                      hn, hedge]
                    exact ⟨nrm, by cases other <;> simp⟩
            · have hn' : nrm.getD false = false := Bool.eq_false_iff.mpr hn
              cases amt with
              | some a0 =>
                simp [get_property_value, propsTruthy, hp, he', hl, ht, hn']
              | none =>
                simp [get_property_value, propsTruthy, hp, he', hl, ht, hn']
                exact ⟨nrm, by cases other <;> simp [hn']⟩
        · have ht' : prop.truthy = false := Bool.eq_false_iff.mpr ht
          simp [get_property_value, propsTruthy, hp, he', hl, ht']

def fC8w : Fn := ⟨none, none, some [("mass", .num true 5)], [1]⟩

/-- C8 (witness): the amended characterization evaluated at a concrete
function: the label "volume" is absent, so the not-found error fires. -/
theorem claim_C8_witness :
    get_property_value fC8w "volume" = .error .keyError :=
  (claim_C8_amended fC8w "volume").mpr
    (Or.inr ⟨[("mass", .num true 5)], rfl, Or.inl rfl⟩)

/-! ## Claims about the table pipeline (database.py) -/

theorem allocate_distributions_map_amount (df : List JoinedRow) :
    (allocate_distributions df).map (fun r => r.amount)
      = df.map (fun r => r.amount) := by
  unfold allocate_distributions
  rw [List.map_map]
  apply List.map_congr_left
  intro r _
  simp only [Function.comp_apply]
  split_ifs <;> rfl

/-- C2 (amended): the matrix build treats a missing allocation factor as
`1` for BOTH the technosphere (consumption) rows and the biosphere rows —
`allocate_amount` applies `fillna(1)` uniformly; there is no asymmetric
missing-as-0 default for the technosphere. -/
theorem claim_C2_amended (nodes : List NodeRow) (exchanges : List ExcRow) :
    (Build_consumption nodes exchanges).map (fun r => r.amount)
        = (exchanges_to_functions nodes exchanges ["technosphere"]).map
            (fun r => r.allocation_factor.getD 1 * r.amount)
      ∧ (Build_biosphere nodes exchanges).map (fun r => r.amount)
        = (exchanges_to_functions nodes exchanges ["biosphere"]).map
            (fun r => r.allocation_factor.getD 1 * r.amount) := by
  constructor <;>
  · simp only [Build_consumption, Build_biosphere, Build_allocated,
      List.map_map]
    rw [show ((fun r : MatrixRow => r.amount) ∘ fun r : JoinedRow =>
        ({ row := r.input, col := r.output, amount := r.amount, flip := _,
           uncertainty_type := r.uncertainty_type, loc := r.loc,
           scale := r.scale, shape := r.shape, minimum := r.minimum,
           maximum := r.maximum } : MatrixRow))
      = fun r : JoinedRow => r.amount from rfl]
    rw [allocate_distributions_map_amount]
    simp only [allocate_amount, List.map_map]
    rfl

def nodesC2 : List NodeRow := [⟨2, "product", some 1, none, none, none⟩]

def excsC2 : List ExcRow :=
  [⟨some 9, some 1, "technosphere", 10, none, none, none, none, none, none⟩]

/-- C2 (counterexample): a technosphere exchange joined to a function with
no recorded allocation factor is assembled with amount `10` (factor
treated as 1), not `0` as the claim's technosphere-missing-as-0 rule
demands. -/
theorem claim_C2_counterexample :
    (exchanges_to_functions nodesC2 excsC2 ["technosphere"]).map
        (fun r => r.allocation_factor) = [none]
      ∧ (Build_consumption nodesC2 excsC2).map (fun r => r.amount)
        = [10] := by
  constructor
  · norm_num [exchanges_to_functions, nodesC2, excsC2, List.filter_cons,
      List.flatMap_cons, List.flatMap_nil]
  · norm_num [Build_consumption, Build_allocated, exchanges_to_functions,
      nodesC2, excsC2, allocate_amount, allocate_distributions, utIsIn,
      List.filter_cons, List.flatMap_cons, List.flatMap_nil]

theorem exchanges_to_functions_clearSub (nodes : List NodeRow)
    (e : List ExcRow) (t : List String) :
    exchanges_to_functions (nodes.map clearSubstitutionCols) e t
      = exchanges_to_functions nodes e t := by
  simp only [exchanges_to_functions]
  induction nodes with
  | nil => rfl
  | cons n rest ih =>
    simp only [List.map_cons, List.filter_cons]
    by_cases hn : n.processor.isSome = true
    · have h2 : (clearSubstitutionCols n).processor.isSome = true := hn
      simp only [hn, h2, if_true, List.flatMap_cons]
      rw [ih]
      rfl
    · have hn' : n.processor.isSome = false := Bool.eq_false_iff.mpr hn
      have h2 : (clearSubstitutionCols n).processor.isSome = false := hn'
      simp only [hn', h2, Bool.false_eq_true, if_false]
      exact ih

theorem production_exchanges_to_functions_clearSub (nodes : List NodeRow)
    (e : List ExcRow) :
    production_exchanges_to_functions (nodes.map clearSubstitutionCols) e
      = production_exchanges_to_functions nodes e := by
  simp only [production_exchanges_to_functions]
  induction nodes with
  | nil => rfl
  | cons n rest ih =>
    simp only [List.map_cons, List.filter_cons]
    by_cases hn : n.processor.isSome = true
    · have h2 : (clearSubstitutionCols n).processor.isSome = true := hn
      simp only [hn, h2, if_true, List.flatMap_cons]
      rw [ih]
      rfl
    · have hn' : n.processor.isSome = false := Bool.eq_false_iff.mpr hn
      have h2 : (clearSubstitutionCols n).processor.isSome = false := hn'
      simp only [hn', h2, Bool.false_eq_true, if_false]
      exact ih

/-- C3 (amended): the assembled technosphere relation contains no
substitution-credit rows at all: the build never reads the `substitute`
or `substitution_factor` columns, so erasing them changes nothing.  The
technosphere is only the allocated consumption rows plus each function's
own (diagonal) production rows. -/
theorem claim_C3_amended (nodes : List NodeRow) (exchanges : List ExcRow) :
    Build_technosphere (nodes.map clearSubstitutionCols) exchanges
      = Build_technosphere nodes exchanges := by
  simp only [Build_technosphere, Build_consumption, Build_biosphere,
    Build_allocated, Build_production, exchanges_to_functions_clearSub,
    production_exchanges_to_functions_clearSub]

def nodesC3 : List NodeRow :=
  [⟨2, "product", some 1, some 1, some 3, some 2⟩,
   ⟨3, "product", some 4, some 1, none, none⟩]

def excsC3 : List ExcRow :=
  [⟨some 2, some 1, "production", 4, none, none, none, none, none, none⟩,
   ⟨some 3, some 4, "production", 8, none, none, none, none, none, none⟩]

/-- C3 (counterexample): the scenario of the claim — function `2`
(production amount 4) substitutes function `3` (production amount 8) with
`substitution_factor = 2` — assembles a technosphere holding only the two
diagonal production rows with `flip = false`; the claimed credit row
`(row = 3, col = 2, amount = 0.25, flip = true)` does not exist. -/
theorem claim_C3_counterexample :
    (Build_technosphere nodesC3 excsC3).map
        (fun r => (r.row, r.col, r.amount, r.flip))
      = [(some 2, 2, 4, false), (some 3, 3, 8, false)] := by
  norm_num [Build_technosphere, Build_consumption, Build_allocated,
    Build_production, exchanges_to_functions,
    production_exchanges_to_functions, nodesC3, excsC3, allocate_amount,
    allocate_distributions, utIsIn, List.filter_cons, List.flatMap_cons,
    List.flatMap_nil, show ¬("production" = "technosphere") from by decide]

/-- C4 (code bug): `allocate_distributions` at a failing input.  A row of
the undefined-uncertainty family (`uncertainty_type = 0`) with `loc = 10`
and allocation factor `1/2` keeps `loc = 10` — the source's `standard`
list stores the `UndefinedUncertainty`/`NoUncertainty` class objects
instead of their ids, so `isin` never matches them — while a normal row
(`uncertainty_type = 3`) with the same data is scaled to `loc = 5` as the
rule table specifies. -/
theorem claim_C4_code_eval :
    (allocate_distributions
        [⟨none, 7, "biosphere", 10, some sa_UndefinedUncertainty_id,
            some 10, none, none, none, none, some (1/2)⟩,
         ⟨none, 7, "biosphere", 10, some sa_NormalUncertainty_id,
            some 10, none, none, none, none, some (1/2)⟩]).map
      (fun r => r.loc) = [some 10, some 5] := by
  norm_num [allocate_distributions, utIsIn, standard_matchable_ids,
    sa_UndefinedUncertainty_id, sa_NormalUncertainty_id,
    sa_UniformUncertainty_id, sa_TriangularUncertainty_id,
    sa_WeibullUncertainty_id, sa_GammaUncertainty_id,
    sa_GeneralizedExtremeValueUncertainty_id, sa_LognormalUncertainty_id]

end BWFunctional
